import Mathlib

/-!
# Ranked film collection of `index.js`

A shallow embedding of the four film handlers of `src/index.js`
(`/api/films/readall`, `/api/films/create`, `/api/films/update`,
`/api/films/delete`) together with theorems about the ranking they keep.

Modelling choices.

* The persisted file `top250.json` is a `List Movie` in storage order.  A
  handler maps the request body and the file content to an `Outcome`: the HTTP
  response and, when `writeMoviesToFile` is reached, the list that is written.
* Request bodies are typed after the data model: `title`, `rating`, `poster`
  are strings, `id`, `year`, `budget`, `gross`, `position` are integers, and
  every field may be absent (`undefined`).  JavaScript truthiness is kept:
  `!x` holds for an absent field, for the empty string and for the number `0`;
  a comparison `x < k` with `x` absent is `false`.
* `Array.prototype.sort` with the comparator `a.position - b.position` is the
  stable sort by `position`; it is modelled by insertion sort, which is stable.
  The sort is in place, so `sortedMovies` and `movies` are the same array.
* The fresh identifier `Math.round(Date.now() + Math.random() * 1000)` is a
  parameter of the create handler.
* Authentication, failing file I/O and the external catalogue fetch are outside
  the model.  The only `500` answers kept are those of the `catch` blocks of
  update and delete, for an index outside the array, which `findIndex` never
  produces.
-/

namespace Films

/-- A record of `top250.json`. -/
structure Movie where
  id : Int
  title : String
  rating : String
  year : Int
  budget : Int
  gross : Int
  poster : String
  position : Int
deriving DecidableEq, Repr

/-- The fields a handler destructures from `req.body`; `none` is `undefined`. -/
structure ReqBody where
  id : Option Int
  title : Option String
  rating : Option String
  year : Option Int
  budget : Option Int
  gross : Option Int
  poster : Option String
  position : Option Int
deriving DecidableEq, Repr

/-- What a handler sends: text, one record, a list of records, or `undefined`. -/
inductive Payload where
  | text (msg : String)
  | movie (m : Movie)
  | movies (ms : List Movie)
  | undefined
deriving DecidableEq, Repr

/-- The HTTP answer: status code and payload. -/
structure Response where
  status : Nat
  payload : Payload
deriving DecidableEq, Repr

/-- Result of one request: the answer and the list handed to
`writeMoviesToFile`, if the handler got that far. -/
structure Outcome where
  response : Response
  written : Option (List Movie)
deriving DecidableEq, Repr

/-- Content of the file after the request. -/
def persisted (file : List Movie) (o : Outcome) : List Movie :=
  o.written.getD file

/-- `!x` for a string field. -/
def falsyStr : Option String → Bool
  | none => true
  | some s => s == ""

/-- `!x` for a numeric field. -/
def falsyNum : Option Int → Bool
  | none => true
  | some n => n == 0

/-- `x < k` for a numeric field; `undefined < k` is `false`. -/
def ltNum : Option Int → Int → Bool
  | none, _ => false
  | some n, k => decide (n < k)

/-- The order induced by the comparator `(a, b) => a.position - b.position`. -/
def posLe (a b : Movie) : Prop := a.position ≤ b.position

instance : DecidableRel posLe := fun a b => inferInstanceAs (Decidable (a.position ≤ b.position))

instance : IsTotal Movie posLe := ⟨fun a b => Int.le_total a.position b.position⟩

instance : IsTrans Movie posLe := ⟨fun _ _ _ h₁ h₂ => Int.le_trans h₁ h₂⟩

/-- `movies.sort((a, b) => a.position - b.position)`. -/
def sortByPosition (movies : List Movie) : List Movie :=
  List.insertionSort posLe movies

/-- `movies.findIndex(p)`; `none` stands for `-1`. -/
def findIndex (p : Movie → Bool) : List Movie → Option Nat
  | [] => none
  | m :: ms => if p m then some 0 else (findIndex p ms).map (· + 1)

/-- `movies[i] = f(movies[i])` for an index inside the array. -/
def modifyAt (f : Movie → Movie) : Nat → List Movie → List Movie
  | _, [] => []
  | 0, m :: ms => f m :: ms
  | i + 1, m :: ms => m :: modifyAt f i ms

/-- The scan of adjacent pairs shared by create (lines 191-198) and update
(lines 263-270): the first pair that strictly encloses `newPosition` ends the
loop, lowering `newPosition` to one above the lower neighbour when it is
further away than that. -/
def clampScan : List Movie → Int → Int
  | a :: b :: rest, newPosition =>
    if a.position < newPosition ∧ b.position > newPosition then
      if newPosition > a.position + 1 then a.position + 1 else newPosition
    else clampScan (b :: rest) newPosition
  | _, newPosition => newPosition

def msgMissingFields : String := "Не все обязательные поля переданы."
def msgYearCreate : String :=
  "Дата фильма не может быть раньше 1895 года. Кинематограф ввели только в этом году!"
def msgYearUpdate : String := "Дата фильма не может быть раньше 1895 года."
def msgNegative : String := "Бюджет и сборы не могут быть отрицательными."
def msgNoId : String := "id фильма не передан."
def msgNotFound : String := "Фильм с данным id не найден."
def msgUpdateFailed : String := "Ошибка при обновлении фильма."
def msgDeleteFailed : String := "Ошибка при удалении фильма."
def msgDeleted (id : Int) : String := "Фильм с id " ++ toString id ++ " успешно удален."

/-- The handler of `GET /api/films/readall`. -/
def filmsReadall (file : List Movie) : Outcome :=
  let sortedMovies := sortByPosition file
  ⟨⟨200, .movies sortedMovies⟩, none⟩

/-- The handler of `POST /api/films/create`; `newId` is the generated identifier. -/
def filmsCreate (newId : Int) (req : ReqBody) (file : List Movie) : Outcome :=
  if falsyStr req.title || falsyStr req.rating || falsyNum req.year || falsyNum req.budget
      || falsyNum req.gross || falsyStr req.poster || falsyNum req.position then
    ⟨⟨400, .text msgMissingFields⟩, none⟩
  else if ltNum req.year 1895 then
    ⟨⟨400, .text msgYearCreate⟩, none⟩
  else if ltNum req.budget 0 || ltNum req.gross 0 then
    ⟨⟨400, .text msgNegative⟩, none⟩
  else
    match req.title, req.rating, req.year, req.budget, req.gross, req.poster, req.position with
    | some title, some rating, some year, some budget, some gross, some poster, some position =>
      let sortedMovies := sortByPosition file
      let newPosition := clampScan sortedMovies position
      let newMovie : Movie := ⟨newId, title, rating, year, budget, gross, poster, newPosition⟩
      let movies := sortByPosition (sortedMovies ++ [newMovie])
      ⟨⟨201, .movie newMovie⟩, some movies⟩
    | _, _, _, _, _, _, _ => ⟨⟨400, .text msgMissingFields⟩, none⟩

/-- Lines 251-256 of update: every field of the body that is not `undefined`
overwrites the record's field; `position` is handled separately. -/
def applyFields (req : ReqBody) (m : Movie) : Movie :=
  { id := m.id
    title := req.title.getD m.title
    rating := req.rating.getD m.rating
    year := req.year.getD m.year
    budget := req.budget.getD m.budget
    gross := req.gross.getD m.gross
    poster := req.poster.getD m.poster
    position := m.position }

/-- `movies[movieIndex].position = newPosition`. -/
def setPosition (newPosition : Int) (m : Movie) : Movie :=
  { m with position := newPosition }

/-- Lines 259-273 of update: when the body carries a position different from
the old one the array is sorted in place, the scan runs over it, and the record
now at `movieIndex` receives the result. -/
def repositionAt (movieIndex : Nat) (oldPosition : Int) (position : Option Int)
    (movies : List Movie) : List Movie :=
  match position with
  | some position =>
    if position ≠ oldPosition then
      let sortedMovies := sortByPosition movies
      let newPosition := clampScan sortedMovies position
      modifyAt (setPosition newPosition) movieIndex sortedMovies
    else movies
  | none => movies

/-- The handler of `POST /api/films/update`. -/
def filmsUpdate (req : ReqBody) (file : List Movie) : Outcome :=
  match req.id with
  | none => ⟨⟨400, .text msgNoId⟩, none⟩
  | some id =>
    if id == 0 then ⟨⟨400, .text msgNoId⟩, none⟩
    else if ltNum req.year 1895 then ⟨⟨400, .text msgYearUpdate⟩, none⟩
    else if ltNum req.budget 0 || ltNum req.gross 0 then ⟨⟨400, .text msgNegative⟩, none⟩
    else
      match findIndex (fun movie => movie.id == id) file with
      | none => ⟨⟨404, .text msgNotFound⟩, none⟩
      | some movieIndex =>
        match file[movieIndex]? with
        | none => ⟨⟨500, .text msgUpdateFailed⟩, none⟩
        | some old =>
          let oldPosition := old.position
          let movies := modifyAt (applyFields req) movieIndex file
          let movies := repositionAt movieIndex oldPosition req.position movies
          let movies := sortByPosition movies
          match movies[movieIndex]? with
          | some m => ⟨⟨200, .movie m⟩, some movies⟩
          | none => ⟨⟨200, .undefined⟩, some movies⟩

/-- The body of the `map` callback in delete (lines 306-311). -/
def shiftDown (deletedMoviePosition : Int) (movie : Movie) : Movie :=
  if movie.position > deletedMoviePosition then
    { movie with position := movie.position - 1 }
  else movie

/-- The handler of `POST /api/films/delete`. -/
def filmsDelete (req : ReqBody) (file : List Movie) : Outcome :=
  match req.id with
  | none => ⟨⟨400, .text msgNoId⟩, none⟩
  | some id =>
    if id == 0 then ⟨⟨400, .text msgNoId⟩, none⟩
    else
      match findIndex (fun movie => movie.id == id) file with
      | none => ⟨⟨404, .text msgNotFound⟩, none⟩
      | some movieIndex =>
        match file[movieIndex]? with
        | none => ⟨⟨500, .text msgDeleteFailed⟩, none⟩
        | some deleted =>
          let deletedMoviePosition := deleted.position
          let movies := file.eraseIdx movieIndex
          let movies := movies.map (shiftDown deletedMoviePosition)
          ⟨⟨200, .text (msgDeleted id)⟩, some movies⟩

/-- The positions `1, …, n` in ascending order. -/
def ranks (n : Nat) : List Int := (List.range' 1 n).map Int.ofNat

/-- The positions of the collection are exactly `{1, …, N}`, each held once,
where `N` is the number of records. -/
def Contiguous (movies : List Movie) : Prop :=
  (movies.map Movie.position).Perm (ranks movies.length)

instance (movies : List Movie) : Decidable (Contiguous movies) :=
  inferInstanceAs (Decidable (List.Perm _ _))

/-- The body of a create request that carries all seven fields. -/
def fullBody (title rating : String) (year budget gross : Int) (poster : String)
    (position : Int) : ReqBody :=
  ⟨none, some title, some rating, some year, some budget, some gross, some poster, some position⟩

/-- Three sample records, at positions 1, 2 and 3. -/
def filmA : Movie := ⟨11, "Alpha", "8.1", 1999, 100, 300, "a.png", 1⟩

def filmB : Movie := ⟨12, "Beta", "7.9", 2005, 200, 150, "b.png", 2⟩

def filmC : Movie := ⟨13, "Gamma", "8.4", 2011, 50, 900, "c.png", 3⟩

/-- One write request to the film API. -/
inductive WriteOp where
  | create (newId : Int) (req : ReqBody)
  | update (req : ReqBody)
  | delete (req : ReqBody)

/-- The handler that serves a write request. -/
def WriteOp.handle (file : List Movie) : WriteOp → Outcome
  | .create newId req => filmsCreate newId req file
  | .update req => filmsUpdate req file
  | .delete req => filmsDelete req file

/-- The file after one write request. -/
def step (file : List Movie) (op : WriteOp) : List Movie :=
  persisted file (op.handle file)

/-- The file after a sequence of write requests, served one after the other. -/
def runAll : List Movie → List WriteOp → List Movie
  | file, [] => file
  | file, op :: ops => runAll (step file op) ops

/-- Requests that do not ask a record to share or skip a rank: any delete, an
update whose patch has no position or repeats the position of the record with
that identifier, and a create that asks for the position after the last one. -/
def RankNeutral (file : List Movie) : WriteOp → Prop
  | .create _ req => req.position = some ((file.length : Int) + 1)
  | .update req =>
    req.position = none ∨ ∀ e ∈ file, some e.id = req.id → req.position = some e.position
  | .delete _ => True

instance (file : List Movie) : (op : WriteOp) → Decidable (RankNeutral file op)
  | .create _ req => inferInstanceAs (Decidable (req.position = some ((file.length : Int) + 1)))
  | .update req => inferInstanceAs (Decidable (req.position = none ∨
      ∀ e ∈ file, some e.id = req.id → req.position = some e.position))
  | .delete _ => inferInstanceAs (Decidable True)

/-- Every request of the sequence is rank neutral for the file it meets. -/
def RankNeutralSeq : List Movie → List WriteOp → Prop
  | _, [] => True
  | file, op :: ops => RankNeutral file op ∧ RankNeutralSeq (step file op) ops

/-- Decision procedure for `RankNeutralSeq`. -/
def rankNeutralSeqDec : (file : List Movie) → (ops : List WriteOp) →
    Decidable (RankNeutralSeq file ops)
  | _, [] => inferInstanceAs (Decidable True)
  | file, op :: ops =>
    have := rankNeutralSeqDec (step file op) ops
    inferInstanceAs (Decidable (RankNeutral file op ∧ RankNeutralSeq (step file op) ops))

instance (file : List Movie) (ops : List WriteOp) : Decidable (RankNeutralSeq file ops) :=
  rankNeutralSeqDec file ops

/-! ## Sorting and the rank list -/

theorem sortByPosition_perm (l : List Movie) : (sortByPosition l).Perm l :=
  List.perm_insertionSort posLe l

theorem sortByPosition_sorted (l : List Movie) : (sortByPosition l).Sorted posLe :=
  List.sorted_insertionSort posLe l

theorem mem_ranks {n : Nat} {p : Int} : p ∈ ranks n ↔ 1 ≤ p ∧ p ≤ n := by
  unfold ranks
  simp only [List.mem_map, List.mem_range'_1]
  constructor
  · rintro ⟨k, ⟨h1, h2⟩, rfl⟩
    simp only [Int.ofNat_eq_coe]
    omega
  · rintro ⟨h1, h2⟩
    refine ⟨p.toNat, ⟨by omega, by omega⟩, ?_⟩
    simp only [Int.ofNat_eq_coe]
    omega

theorem length_ranks (n : Nat) : (ranks n).length = n := by
  simp [ranks]

theorem nodup_ranks (n : Nat) : (ranks n).Nodup := by
  unfold ranks
  refine List.Nodup.map ?_ (List.nodup_range' 1 n)
  intro a b h
  exact Int.ofNat.inj h

theorem ranks_succ (n : Nat) : ranks (n + 1) = ranks n ++ [(n : Int) + 1] := by
  unfold ranks
  rw [List.range'_1_concat, List.map_append]
  simp only [List.map_cons, List.map_nil, Int.ofNat_eq_coe]
  congr 2
  omega

theorem sorted_ranks (n : Nat) : (ranks n).Sorted (· ≤ ·) := by
  induction n with
  | zero => simp [ranks]
  | succ n ih =>
    rw [ranks_succ]
    refine List.pairwise_append.2 ⟨ih, List.pairwise_singleton _ _, ?_⟩
    intro a ha b hb
    rw [mem_ranks] at ha
    simp only [List.mem_singleton] at hb
    omega

theorem chain_ranks (n : Nat) : (ranks n).Chain' (fun a b => b ≤ a + 1) := by
  induction n with
  | zero => simp [ranks]
  | succ n ih =>
    rw [ranks_succ]
    refine List.Chain'.append ih (List.chain'_singleton _) ?_
    intro a ha b hb
    simp only [List.head?_cons, Option.mem_def, Option.some.injEq] at hb
    cases n with
    | zero => simp [ranks] at ha
    | succ m =>
      rw [ranks_succ] at ha
      simp at ha
      push_cast at ha hb ⊢
      omega


/-! ## Contiguity and the clamping scan -/

theorem contiguous_iff (l : List Movie) :
    Contiguous l ↔
      (l.map Movie.position).Nodup ∧ ∀ p ∈ l.map Movie.position, 1 ≤ p ∧ p ≤ l.length := by
  unfold Contiguous
  constructor
  · intro h
    refine ⟨h.nodup_iff.2 (nodup_ranks _), fun p hp => ?_⟩
    exact mem_ranks.1 (h.subset hp)
  · rintro ⟨hnd, hb⟩
    have hsub : (l.map Movie.position) ⊆ ranks l.length := fun p hp => mem_ranks.2 (hb p hp)
    refine (List.subperm_of_subset hnd hsub).perm_of_length_le ?_
    simp [length_ranks]

theorem positions_sorted_of_sorted {l : List Movie} (h : l.Sorted posLe) :
    (l.map Movie.position).Sorted (· ≤ ·) := by
  unfold List.Sorted at h ⊢
  rw [List.pairwise_map]
  exact h

theorem sorted_positions_eq_ranks {l : List Movie} (hc : Contiguous l) :
    (sortByPosition l).map Movie.position = ranks l.length := by
  have hp : ((sortByPosition l).map Movie.position).Perm (ranks l.length) :=
    ((sortByPosition_perm l).map _).trans hc
  exact List.eq_of_perm_of_sorted hp (positions_sorted_of_sorted (sortByPosition_sorted l))
    (sorted_ranks _)

theorem clampScan_of_chain (d : Int) :
    ∀ l : List Movie, (l.map Movie.position).Chain' (fun a b => b ≤ a + 1) → clampScan l d = d
  | [], _ => rfl
  | [_], _ => rfl
  | a :: b :: rest, h => by
    simp only [List.map_cons, List.chain'_cons] at h
    have ih := clampScan_of_chain d (b :: rest) (by simpa using h.2)
    unfold clampScan
    split
    · next hc =>
      split
      · omega
      · rfl
    · exact ih

theorem clampScan_of_contiguous {l : List Movie} (hc : Contiguous l) (d : Int) :
    clampScan (sortByPosition l) d = d := by
  apply clampScan_of_chain
  rw [sorted_positions_eq_ranks hc]
  exact chain_ranks _

theorem filmsCreate_accept (newId : Int) (file : List Movie) (title rating : String)
    (year budget gross : Int) (poster : String) (position : Int)
    (ht : title ≠ "") (hr : rating ≠ "") (hy : 1895 ≤ year) (hb : 0 < budget) (hg : 0 < gross)
    (hp : poster ≠ "") (hpos : position ≠ 0) :
    filmsCreate newId (fullBody title rating year budget gross poster position) file =
      ⟨⟨201, .movie ⟨newId, title, rating, year, budget, gross, poster,
          clampScan (sortByPosition file) position⟩⟩,
        some (sortByPosition (sortByPosition file ++
          [⟨newId, title, rating, year, budget, gross, poster,
            clampScan (sortByPosition file) position⟩]))⟩ := by
  have hy0 : year ≠ 0 := by omega
  have hb0 : budget ≠ 0 := by omega
  have hg0 : gross ≠ 0 := by omega
  have hy1 : ¬ year < 1895 := by omega
  have hb1 : ¬ budget < 0 := by omega
  have hg1 : ¬ gross < 0 := by omega
  simp [filmsCreate, fullBody, falsyStr, falsyNum, ltNum, ht, hr, hp, hpos, hy0, hb0, hg0, hy1,
    hb1, hg1]

/-! ## Index lookup and in-place edits -/

theorem findIndex_some {p : Movie → Bool} :
    ∀ {l : List Movie} {i : Nat}, findIndex p l = some i →
      ∃ a x b, l = a ++ x :: b ∧ a.length = i ∧ p x = true ∧ ∀ y ∈ a, p y = false
  | [], i, h => by simp [findIndex] at h
  | m :: ms, i, h => by
    unfold findIndex at h
    by_cases hm : p m = true
    · simp only [hm, if_true, Option.some.injEq] at h
      exact ⟨[], m, ms, rfl, by simpa using h, hm, by simp⟩
    · simp only [hm, Bool.false_eq_true, if_false, Option.map_eq_some'] at h
      obtain ⟨j, hj, rfl⟩ := h
      obtain ⟨a, x, b, rfl, rfl, hx, ha⟩ := findIndex_some hj
      refine ⟨m :: a, x, b, rfl, rfl, hx, ?_⟩
      intro y hy
      rcases List.mem_cons.1 hy with rfl | hy
      · simpa using hm
      · exact ha y hy

theorem findIndex_none {p : Movie → Bool} :
    ∀ {l : List Movie}, (∀ y ∈ l, p y = false) → findIndex p l = none
  | [], _ => rfl
  | m :: ms, h => by
    have hm : p m = false := h m (List.mem_cons_self _ _)
    have ih := findIndex_none (l := ms) (fun y hy => h y (List.mem_cons_of_mem _ hy))
    simp [findIndex, hm, ih]

theorem modifyAt_append (f : Movie → Movie) :
    ∀ (a : List Movie) (x : Movie) (b : List Movie),
      modifyAt f a.length (a ++ x :: b) = a ++ f x :: b
  | [], _, _ => rfl
  | m :: a, x, b => by
    have ih := modifyAt_append f a x b
    show modifyAt f (a.length + 1) (m :: (a ++ x :: b)) = m :: (a ++ f x :: b)
    rw [modifyAt, ih]

theorem getElem?_append_cons (a : List Movie) (x : Movie) (b : List Movie) :
    (a ++ x :: b)[a.length]? = some x := by
  rw [List.getElem?_append_right (Nat.le_refl _)]
  simp

theorem eraseIdx_append_cons (a : List Movie) (x : Movie) (b : List Movie) :
    (a ++ x :: b).eraseIdx a.length = a ++ b := by
  rw [List.eraseIdx_append_of_length_le (Nat.le_refl _)]
  simp

/-! ## Reading, and create on a contiguous collection -/

/-- C9. listAll answers 200 with a list that is a permutation of the stored
collection, ordered by non-decreasing position; it writes nothing, so the file
is unchanged and a second call gives the identical answer. -/
theorem readall_sorted_permutation (file : List Movie) :
    ∃ out, (filmsReadall file).response = ⟨200, .movies out⟩ ∧
      out.Perm file ∧
      out.Pairwise (fun a b => a.position ≤ b.position) ∧
      (filmsReadall file).written = none ∧
      persisted file (filmsReadall file) = file ∧
      filmsReadall (persisted file (filmsReadall file)) = filmsReadall file :=
  ⟨sortByPosition file, rfl, sortByPosition_perm file, sortByPosition_sorted file, rfl, rfl, rfl⟩

/-- C10. On a collection whose positions are exactly 1..N, a create request
that passes the validation checks is answered 201 with the new record carrying
the desired position unchanged, and that record is part of the written
collection, which holds the old records and the new one. -/
theorem create_contiguous_keeps_desired (newId : Int) (file : List Movie)
    (title rating : String) (year budget gross : Int) (poster : String) (position : Int)
    (hc : Contiguous file)
    (ht : title ≠ "") (hr : rating ≠ "") (hy : 1895 ≤ year) (hb : 0 < budget) (hg : 0 < gross)
    (hp : poster ≠ "") (hpos : position ≠ 0) :
    ∃ out, filmsCreate newId (fullBody title rating year budget gross poster position) file =
        ⟨⟨201, .movie ⟨newId, title, rating, year, budget, gross, poster, position⟩⟩, some out⟩ ∧
      (⟨newId, title, rating, year, budget, gross, poster, position⟩ : Movie) ∈ out ∧
      out.Perm (file ++ [⟨newId, title, rating, year, budget, gross, poster, position⟩]) := by
  have hacc := filmsCreate_accept newId file title rating year budget gross poster position
    ht hr hy hb hg hp hpos
  rw [clampScan_of_contiguous hc] at hacc
  refine ⟨_, hacc, ?_, ?_⟩
  · exact (sortByPosition_perm _).mem_iff.2 (by simp)
  · exact (sortByPosition_perm _).trans ((sortByPosition_perm file).append_right _)

theorem create_contiguous_keeps_desired_witness :
    Contiguous [filmA, filmB, filmC] ∧
    ∃ out, filmsCreate 77 (fullBody "Delta" "6.5" 1895 1 1 "d.png" 2) [filmA, filmB, filmC] =
        ⟨⟨201, .movie ⟨77, "Delta", "6.5", 1895, 1, 1, "d.png", 2⟩⟩, some out⟩ ∧
      (⟨77, "Delta", "6.5", 1895, 1, 1, "d.png", 2⟩ : Movie) ∈ out ∧
      out.Perm ([filmA, filmB, filmC] ++ [⟨77, "Delta", "6.5", 1895, 1, 1, "d.png", 2⟩]) :=
  ⟨by decide, create_contiguous_keeps_desired 77 [filmA, filmB, filmC] "Delta" "6.5" 1895 1 1
    "d.png" 2 (by decide) (by decide) (by decide) (by decide) (by decide) (by decide) (by decide)
    (by decide)⟩

/-! ## Create beyond the last position; zero budget -/

theorem contiguous_of_positions_123 {file : List Movie}
    (h : (file.map Movie.position).Perm [1, 2, 3]) : Contiguous file := by
  have hlen : file.length = 3 := by simpa using h.length_eq
  unfold Contiguous
  rw [hlen]
  exact h

/-- C2 (as stated, refuted). With positions 1, 2, 3 stored, a valid create
request asking for position 5 is not answered with a record at position 4. -/
theorem create_five_after_123_is_not_four :
    [filmA, filmB, filmC].map Movie.position = [1, 2, 3] ∧
    ¬ ∃ m out, filmsCreate 77 (fullBody "Delta" "6.5" 2001 1 1 "d.png" 5) [filmA, filmB, filmC] =
        ⟨⟨201, .movie m⟩, some out⟩ ∧ m.position = 4 := by
  refine ⟨rfl, ?_⟩
  rintro ⟨m, out, h, hm⟩
  have hval : filmsCreate 77 (fullBody "Delta" "6.5" 2001 1 1 "d.png" 5) [filmA, filmB, filmC] =
      ⟨⟨201, .movie ⟨77, "Delta", "6.5", 2001, 1, 1, "d.png", 5⟩⟩,
        some [filmA, filmB, filmC, ⟨77, "Delta", "6.5", 2001, 1, 1, "d.png", 5⟩]⟩ := by
    decide
  rw [hval] at h
  injection h with h1 _
  injection h1 with _ h2
  injection h2 with h3
  subst h3
  exact absurd hm (by decide)

/-- C2 (amended). On any collection whose records hold the positions 1, 2, 3,
a create request that passes the validation checks and asks for position 5 is
answered 201 with the new record at position 5, the requested value, and that
record is in the written collection. -/
theorem create_five_after_123_keeps_five (newId : Int) (file : List Movie)
    (title rating : String) (year budget gross : Int) (poster : String)
    (hfile : (file.map Movie.position).Perm [1, 2, 3])
    (ht : title ≠ "") (hr : rating ≠ "") (hy : 1895 ≤ year) (hb : 0 < budget) (hg : 0 < gross)
    (hp : poster ≠ "") :
    ∃ out, filmsCreate newId (fullBody title rating year budget gross poster 5) file =
        ⟨⟨201, .movie ⟨newId, title, rating, year, budget, gross, poster, 5⟩⟩, some out⟩ ∧
      (⟨newId, title, rating, year, budget, gross, poster, 5⟩ : Movie) ∈ out := by
  have hacc := filmsCreate_accept newId file title rating year budget gross poster 5
    ht hr hy hb hg hp (by decide)
  rw [clampScan_of_contiguous (contiguous_of_positions_123 hfile)] at hacc
  exact ⟨_, hacc, (sortByPosition_perm _).mem_iff.2 (by simp)⟩

theorem create_five_after_123_keeps_five_witness :
    ([filmC, filmA, filmB].map Movie.position).Perm [1, 2, 3] ∧
    ∃ out, filmsCreate 77 (fullBody "Delta" "6.5" 2001 1 1 "d.png" 5) [filmC, filmA, filmB] =
        ⟨⟨201, .movie ⟨77, "Delta", "6.5", 2001, 1, 1, "d.png", 5⟩⟩, some out⟩ ∧
      (⟨77, "Delta", "6.5", 2001, 1, 1, "d.png", 5⟩ : Movie) ∈ out :=
  ⟨by decide, create_five_after_123_keeps_five 77 [filmC, filmA, filmB] "Delta" "6.5" 2001 1 1
    "d.png" (by decide) (by decide) (by decide) (by decide) (by decide) (by decide) (by decide)⟩

/-- C4 (failing input). A create request with every field present, year 2001,
gross 1 and budget 0 is answered 400 "not all required fields were passed" and
nothing is written: the presence test `!budget` also fires on the number 0. -/
theorem create_rejects_zero_budget :
    filmsCreate 77 (fullBody "Delta" "6.5" 2001 0 1 "d.png" 4) [filmA, filmB, filmC] =
      ⟨⟨400, .text msgMissingFields⟩, none⟩ := by
  decide

/-! ## Update: the index found before sorting -/

/-- C5 (failing input). Moving the record with id 11 from position 1 to
position 3 in a sorted three-record file is answered with the record of id 12:
the index found before the final sort is read after it. -/
theorem update_returns_other_record :
    filmsUpdate ⟨some 11, none, none, none, none, none, none, some 3⟩ [filmA, filmB, filmC] =
      ⟨⟨200, .movie filmB⟩, some [filmB, { filmA with position := 3 }, filmC]⟩ := by
  decide

/-- C8 (failing input). With the file stored out of position order, moving
the record with id 12 to position 5 leaves that record at position 2 and puts
the record with id 11 at position 5, although the scan over the sorted
collection yields 5 for the moved record. -/
theorem update_moves_other_record :
    clampScan (sortByPosition [filmB, filmA]) 5 = 5 ∧
    filmsUpdate ⟨some 12, none, none, none, none, none, none, some 5⟩ [filmB, filmA] =
      ⟨⟨200, .movie filmB⟩, some [filmB, { filmA with position := 5 }]⟩ := by
  decide

/-! ## Requests for an identifier nobody holds -/

/-- C7 (as stated, refuted). An update for an identifier that no record
holds, carrying year 1000, is answered 400, not 404. -/
theorem update_absent_id_bad_year_is_400 :
    (∀ m ∈ [filmA, filmB, filmC], m.id ≠ 99) ∧
    (filmsUpdate ⟨some 99, none, none, some 1000, none, none, none, none⟩
      [filmA, filmB, filmC]).response = ⟨400, .text msgYearUpdate⟩ := by
  decide

/-- C7 (amended). For an identifier that no record holds, update and delete
write nothing, so the file is unchanged.  Delete answers 404 when the
identifier is non-zero and 400 when it is zero.  Update answers 404 when the
identifier is non-zero and the patch passes the year, budget and gross checks;
a zero identifier is answered 400. -/
theorem absent_id_not_found_no_write (file : List Movie) (req : ReqBody) (id : Int)
    (hid : req.id = some id) (habs : ∀ m ∈ file, m.id ≠ id) :
    (filmsUpdate req file).written = none ∧
    (filmsDelete req file).written = none ∧
    persisted file (filmsUpdate req file) = file ∧
    persisted file (filmsDelete req file) = file ∧
    (id ≠ 0 → (filmsDelete req file).response = ⟨404, .text msgNotFound⟩) ∧
    (id = 0 → (filmsDelete req file).response = ⟨400, .text msgNoId⟩) ∧
    (id = 0 → (filmsUpdate req file).response = ⟨400, .text msgNoId⟩) ∧
    (id ≠ 0 → (∀ y, req.year = some y → 1895 ≤ y) → (∀ b, req.budget = some b → 0 ≤ b) →
      (∀ g, req.gross = some g → 0 ≤ g) →
      (filmsUpdate req file).response = ⟨404, .text msgNotFound⟩) := by
  have hfind : findIndex (fun movie => movie.id == id) file = none :=
    findIndex_none (fun y hy => by simpa using habs y hy)
  have hdel : (filmsDelete req file).written = none := by
    unfold filmsDelete
    simp only [hid, hfind]
    split <;> rfl
  have hupd : (filmsUpdate req file).written = none := by
    unfold filmsUpdate
    simp only [hid, hfind]
    split
    · rfl
    · split
      · rfl
      · split <;> rfl
  refine ⟨hupd, hdel, by simp [persisted, hupd], by simp [persisted, hdel], ?_, ?_, ?_, ?_⟩
  · intro h0
    simp [filmsDelete, hid, hfind, h0]
  · intro h0
    simp [filmsDelete, hid, h0]
  · intro h0
    simp [filmsUpdate, hid, h0]
  · intro h0 hy hb hg
    have h1 : ltNum req.year 1895 = false := by
      cases hyr : req.year with
      | none => rfl
      | some y => have := hy y hyr; simp [ltNum]; omega
    have h2 : ltNum req.budget 0 = false := by
      cases hbr : req.budget with
      | none => rfl
      | some b => have := hb b hbr; simp [ltNum]; omega
    have h3 : ltNum req.gross 0 = false := by
      cases hgr : req.gross with
      | none => rfl
      | some g => have := hg g hgr; simp [ltNum]; omega
    simp [filmsUpdate, hid, hfind, h0, h1, h2, h3]

theorem absent_id_not_found_no_write_witness :
    (∀ m ∈ [filmA, filmB, filmC], m.id ≠ 99) ∧
    (filmsUpdate ⟨some 99, none, some "9.0", none, none, none, none, none⟩
      [filmA, filmB, filmC]).response = ⟨404, .text msgNotFound⟩ ∧
    (filmsDelete ⟨some 99, none, some "9.0", none, none, none, none, none⟩
      [filmA, filmB, filmC]).response = ⟨404, .text msgNotFound⟩ ∧
    persisted [filmA, filmB, filmC]
      (filmsUpdate ⟨some 99, none, some "9.0", none, none, none, none, none⟩
        [filmA, filmB, filmC]) = [filmA, filmB, filmC] :=
  have h := absent_id_not_found_no_write [filmA, filmB, filmC]
    ⟨some 99, none, some "9.0", none, none, none, none, none⟩ 99 rfl (by decide)
  ⟨by decide,
    h.2.2.2.2.2.2.2 (by decide) (fun _ hy => by simp at hy) (fun _ hb => by simp at hb)
      (fun _ hg => by simp at hg),
    h.2.2.2.2.1 (by decide), h.2.2.1⟩

/-! ## Delete and compaction -/

theorem findIndex_append {p : Movie → Bool} {x : Movie} (hx : p x = true) (b : List Movie) :
    ∀ a : List Movie, (∀ y ∈ a, p y = false) → findIndex p (a ++ x :: b) = some a.length
  | [], _ => by simp [findIndex, hx]
  | m :: a, h => by
    have hm : p m = false := h m (List.mem_cons_self _ _)
    have ih := findIndex_append hx b a (fun y hy => h y (List.mem_cons_of_mem _ hy))
    simp [findIndex, hm, ih]

/-- In a list with pairwise distinct identifiers, a record splits the list into
the records before it and the records after it, none of which shares its id. -/
theorem split_of_nodup_ids {file : List Movie} {e : Movie}
    (hids : (file.map Movie.id).Nodup) (he : e ∈ file) :
    ∃ a b, file = a ++ e :: b ∧ (∀ y ∈ a, y.id ≠ e.id) ∧ (∀ y ∈ b, y.id ≠ e.id) := by
  obtain ⟨a, b, rfl⟩ := List.append_of_mem he
  refine ⟨a, b, rfl, ?_, ?_⟩
  · intro y hy hyid
    simp only [List.map_append, List.map_cons] at hids
    have := (List.nodup_append.1 hids).2.2
    exact this (List.mem_map_of_mem _ hy) (by simp [hyid]) 
  · intro y hy hyid
    simp only [List.map_append, List.map_cons] at hids
    have h2 := (List.nodup_append.1 hids).2.1
    rw [List.nodup_cons] at h2
    exact h2.1 (hyid ▸ List.mem_map_of_mem _ hy)

theorem filmsDelete_split (req : ReqBody) (id : Int) (a : List Movie) (e : Movie)
    (b : List Movie) (hid : req.id = some id) (h0 : id ≠ 0) (he : e.id = id)
    (ha : ∀ y ∈ a, y.id ≠ id) :
    filmsDelete req (a ++ e :: b) =
      ⟨⟨200, .text (msgDeleted id)⟩, some ((a ++ b).map (shiftDown e.position))⟩ := by
  have hfind : findIndex (fun movie => movie.id == id) (a ++ e :: b) = some a.length :=
    findIndex_append (by simp [he]) b a (fun y hy => by simpa using ha y hy)
  simp only [filmsDelete, hid, beq_iff_eq, h0, if_false, hfind, getElem?_append_cons,
    eraseIdx_append_cons]

theorem positions_shiftDown (k : Int) (l : List Movie) :
    (l.map (shiftDown k)).map Movie.position =
      (l.map Movie.position).map (fun p => if p > k then p - 1 else p) := by
  simp only [List.map_map]
  apply List.map_congr_left
  intro m _
  simp only [Function.comp, shiftDown]
  split <;> rfl

/-- Removing one record and lowering the positions above it keeps the positions
exactly 1..N. -/
theorem contiguous_delete {a b : List Movie} {e : Movie} (hc : Contiguous (a ++ e :: b)) :
    Contiguous ((a ++ b).map (shiftDown e.position)) := by
  rw [contiguous_iff] at hc ⊢
  obtain ⟨hnd, hbd⟩ := hc
  have hperm : ((a ++ e :: b).map Movie.position).Perm
      (e.position :: (a ++ b).map Movie.position) := by
    simp only [List.map_append, List.map_cons]
    exact List.perm_middle
  have hnd2 := hperm.nodup_iff.1 hnd
  rw [List.nodup_cons] at hnd2
  have hk := hbd e.position (by simp)
  have hlen : (a ++ e :: b).length = (a ++ b).length + 1 := by simp; omega
  rw [hlen] at hbd hk
  have hmem : ∀ p ∈ (a ++ b).map Movie.position, 1 ≤ p ∧ p ≤ ((a ++ b).length : Int) + 1 ∧
      p ≠ e.position := by
    intro p hp
    have h1 := hbd p (hperm.mem_iff.2 (List.mem_cons_of_mem _ hp))
    refine ⟨h1.1, by push_cast at h1; exact h1.2, ?_⟩
    rintro rfl
    exact hnd2.1 hp
  rw [positions_shiftDown, List.length_map]
  constructor
  · refine List.Nodup.map_on ?_ hnd2.2
    intro x hx y hy hxy
    have hx' := hmem x hx
    have hy' := hmem y hy
    split_ifs at hxy <;> omega
  · intro q hq
    obtain ⟨p, hp, rfl⟩ := List.mem_map.1 hq
    have hp' := hmem p hp
    push_cast at hk
    split_ifs <;> omega

/-- C3 (as stated, refuted). The record at position 1 of a one-record
collection holds the identifier 0; deleting by that identifier is answered 400
and the record stays. -/
theorem delete_zero_id_is_rejected :
    Contiguous [{ filmA with id := 0 }] ∧
    filmsDelete ⟨some 0, none, none, none, none, none, none, none⟩ [{ filmA with id := 0 }] =
      ⟨⟨400, .text msgNoId⟩, none⟩ ∧
    persisted [{ filmA with id := 0 }]
      (filmsDelete ⟨some 0, none, none, none, none, none, none, none⟩ [{ filmA with id := 0 }]) =
      [{ filmA with id := 0 }] := by
  decide

/-- C3 (amended). On a collection with positions exactly 1..N and pairwise
distinct identifiers, deleting by a non-zero identifier held by the record `e`
is answered 200 and writes the remaining records in their stored order, each
record above `e` one position lower and every other record unchanged; the
written collection has N-1 records, none with that identifier, and positions
exactly 1..N-1. -/
theorem delete_compacts (file : List Movie) (req : ReqBody) (id : Int) (e : Movie)
    (hc : Contiguous file) (hids : (file.map Movie.id).Nodup)
    (hid : req.id = some id) (h0 : id ≠ 0) (he : e ∈ file) (heid : e.id = id) :
    ∃ out, filmsDelete req file = ⟨⟨200, .text (msgDeleted id)⟩, some out⟩ ∧
      out = (file.filter (fun m => m.id != id)).map
        (fun m => if m.position > e.position then { m with position := m.position - 1 } else m) ∧
      out.length + 1 = file.length ∧
      (∀ m ∈ out, m.id ≠ id) ∧
      Contiguous out := by
  obtain ⟨a, b, rfl, ha, hb⟩ := split_of_nodup_ids hids he
  rw [heid] at ha hb
  have hfilter : (a ++ e :: b).filter (fun m => m.id != id) = a ++ b := by
    have h1 : a.filter (fun m => m.id != id) = a :=
      List.filter_eq_self.2 (fun y hy => by simpa using ha y hy)
    have h2 : b.filter (fun m => m.id != id) = b :=
      List.filter_eq_self.2 (fun y hy => by simpa using hb y hy)
    simp [List.filter_append, List.filter_cons, heid, h1, h2]
  refine ⟨_, filmsDelete_split req id a e b hid h0 heid ha, ?_, ?_, ?_, contiguous_delete hc⟩
  · rw [hfilter]
    rfl
  · simp; omega
  · intro m hm
    obtain ⟨m', hm', rfl⟩ := List.mem_map.1 hm
    have hid' : (shiftDown e.position m').id = m'.id := by
      unfold shiftDown
      split <;> rfl
    rw [hid']
    rcases List.mem_append.1 hm' with h | h
    · exact ha m' h
    · exact hb m' h

theorem delete_compacts_witness :
    Contiguous [filmA, filmB, filmC] ∧
    ∃ out, filmsDelete ⟨some 12, none, none, none, none, none, none, none⟩
        [filmA, filmB, filmC] = ⟨⟨200, .text (msgDeleted 12)⟩, some out⟩ ∧
      out = ([filmA, filmB, filmC].filter (fun m => m.id != 12)).map
        (fun m => if m.position > filmB.position then { m with position := m.position - 1 }
          else m) ∧
      out.length + 1 = [filmA, filmB, filmC].length ∧
      (∀ m ∈ out, m.id ≠ 12) ∧
      Contiguous out :=
  ⟨by decide, delete_compacts [filmA, filmB, filmC]
    ⟨some 12, none, none, none, none, none, none, none⟩ 12 filmB (by decide) (by decide) rfl
    (by decide) (by decide) rfl⟩

/-! ## What each handler writes -/

theorem ltNum_eq_false {x : Option Int} {k : Int} (h : ∀ v, x = some v → k ≤ v) :
    ltNum x k = false := by
  cases hx : x with
  | none => rfl
  | some v =>
    have := h v hx
    simp only [ltNum, decide_eq_false_iff_not]
    omega

theorem filmsDelete_written (req : ReqBody) (file : List Movie) :
    (filmsDelete req file).written = none ∨
      ∃ a e b, file = a ++ e :: b ∧
        (filmsDelete req file).written = some ((a ++ b).map (shiftDown e.position)) := by
  unfold filmsDelete
  cases req.id with
  | none => exact Or.inl rfl
  | some id =>
    simp only
    split
    · exact Or.inl rfl
    · cases hfind : findIndex (fun movie => movie.id == id) file with
      | none => exact Or.inl rfl
      | some idx =>
        obtain ⟨a, e, b, rfl, rfl, _, _⟩ := findIndex_some hfind
        refine Or.inr ⟨a, e, b, rfl, ?_⟩
        simp only [getElem?_append_cons, eraseIdx_append_cons]

theorem filmsUpdate_written (req : ReqBody) (file : List Movie) :
    (filmsUpdate req file).written = none ∨
      ∃ id a e b, req.id = some id ∧ file = a ++ e :: b ∧ e.id = id ∧
        (filmsUpdate req file).written = some (sortByPosition
          (repositionAt a.length e.position req.position (a ++ applyFields req e :: b))) := by
  unfold filmsUpdate
  cases hid : req.id with
  | none => exact Or.inl rfl
  | some id =>
    simp only
    split
    · exact Or.inl rfl
    · split
      · exact Or.inl rfl
      · split
        · exact Or.inl rfl
        · cases hfind : findIndex (fun movie => movie.id == id) file with
          | none => exact Or.inl rfl
          | some idx =>
            obtain ⟨a, e, b, rfl, rfl, he, _⟩ := findIndex_some hfind
            refine Or.inr ⟨id, a, e, b, rfl, rfl, by simpa using he, ?_⟩
            simp only [getElem?_append_cons, modifyAt_append]
            split <;> rfl

theorem filmsCreate_written (newId : Int) (req : ReqBody) (file : List Movie) :
    (filmsCreate newId req file).written = none ∨
      ∃ title rating year budget gross poster position, req.position = some position ∧
        (filmsCreate newId req file).written = some (sortByPosition (sortByPosition file ++
          [⟨newId, title, rating, year, budget, gross, poster,
            clampScan (sortByPosition file) position⟩])) := by
  unfold filmsCreate
  split
  · exact Or.inl rfl
  · split
    · exact Or.inl rfl
    · split
      · exact Or.inl rfl
      · split
        · next title rating year budget gross poster position _ _ _ _ _ _ hpos =>
          exact Or.inr ⟨title, rating, year, budget, gross, poster, position, hpos, rfl⟩
        · exact Or.inl rfl

/-! ## Update without a position -/

theorem filmsUpdate_split (req : ReqBody) (id : Int) (a : List Movie) (e : Movie)
    (b : List Movie) (hid : req.id = some id) (h0 : id ≠ 0)
    (hy : ∀ y, req.year = some y → 1895 ≤ y) (hb : ∀ v, req.budget = some v → 0 ≤ v)
    (hg : ∀ v, req.gross = some v → 0 ≤ v)
    (he : e.id = id) (ha : ∀ y ∈ a, y.id ≠ id) :
    (filmsUpdate req (a ++ e :: b)).response.status = 200 ∧
    (filmsUpdate req (a ++ e :: b)).written = some (sortByPosition
      (repositionAt a.length e.position req.position (a ++ applyFields req e :: b))) := by
  have hfind : findIndex (fun movie => movie.id == id) (a ++ e :: b) = some a.length :=
    findIndex_append (by simp [he]) b a (fun y hy => by simpa using ha y hy)
  simp only [filmsUpdate, hid, beq_iff_eq, h0, if_false, ltNum_eq_false hy, ltNum_eq_false hb,
    ltNum_eq_false hg, Bool.or_self, Bool.false_eq_true, hfind, getElem?_append_cons,
    modifyAt_append]
  split <;> exact ⟨rfl, rfl⟩

/-- C6 (as stated, refuted). A patch without position that carries a new title
and the year 1000 is answered 400; the file keeps the old title. -/
theorem update_bad_year_applies_nothing :
    (filmsUpdate ⟨some 12, some "Omega", none, some 1000, none, none, none, none⟩
      [filmA, filmB, filmC]).response = ⟨400, .text msgYearUpdate⟩ ∧
    persisted [filmA, filmB, filmC]
      (filmsUpdate ⟨some 12, some "Omega", none, some 1000, none, none, none, none⟩
        [filmA, filmB, filmC]) = [filmA, filmB, filmC] ∧
    filmB.id = 12 ∧ filmB.title ≠ "Omega" := by
  decide

/-- C6 (amended). On a collection with pairwise distinct identifiers that
holds a record `e` with the non-zero identifier `id`, an update whose patch has
no position and passes the year, budget and gross checks is answered 200 and
writes a permutation of the collection in which the record with `id` has every
field of the patch set to the patch value and every omitted field, position
included, as before, while every other record is unchanged. -/
theorem update_fields_only (file : List Movie) (req : ReqBody) (id : Int) (e : Movie)
    (hids : (file.map Movie.id).Nodup) (hid : req.id = some id) (h0 : id ≠ 0)
    (hpos : req.position = none)
    (hy : ∀ y, req.year = some y → 1895 ≤ y) (hb : ∀ v, req.budget = some v → 0 ≤ v)
    (hg : ∀ v, req.gross = some v → 0 ≤ v)
    (he : e ∈ file) (heid : e.id = id) :
    ∃ out, (filmsUpdate req file).response.status = 200 ∧
      (filmsUpdate req file).written = some out ∧
      out.Perm (file.map (fun m => if m.id = id then
        { id := m.id
          title := req.title.getD m.title
          rating := req.rating.getD m.rating
          year := req.year.getD m.year
          budget := req.budget.getD m.budget
          gross := req.gross.getD m.gross
          poster := req.poster.getD m.poster
          position := m.position } else m)) ∧
      (∀ m ∈ out, m.id = id → m =
        { id := e.id
          title := req.title.getD e.title
          rating := req.rating.getD e.rating
          year := req.year.getD e.year
          budget := req.budget.getD e.budget
          gross := req.gross.getD e.gross
          poster := req.poster.getD e.poster
          position := e.position }) ∧
      (∀ m, m.id ≠ id → (m ∈ out ↔ m ∈ file)) := by
  obtain ⟨a, b, rfl, ha, hb'⟩ := split_of_nodup_ids hids he
  rw [heid] at ha hb'
  obtain ⟨hst, hw⟩ := filmsUpdate_split req id a e b hid h0 hy hb hg heid ha
  have hrep : repositionAt a.length e.position req.position (a ++ applyFields req e :: b) =
      a ++ applyFields req e :: b := by
    rw [hpos]
    rfl
  rw [hrep] at hw
  have hmap : (a ++ e :: b).map (fun m => if m.id = id then applyFields req m else m) =
      a ++ applyFields req e :: b := by
    have h1 : a.map (fun m => if m.id = id then applyFields req m else m) = a := by
      conv_rhs => rw [← List.map_id a]
      exact List.map_congr_left (fun y hy => by simp [ha y hy])
    have h2 : b.map (fun m => if m.id = id then applyFields req m else m) = b := by
      conv_rhs => rw [← List.map_id b]
      exact List.map_congr_left (fun y hy => by simp [hb' y hy])
    simp only [List.map_append, List.map_cons, h1, h2, heid, if_true]
  have hperm : (sortByPosition (a ++ applyFields req e :: b)).Perm (a ++ applyFields req e :: b) :=
    sortByPosition_perm _
  have hpid : (applyFields req e).id = id := heid
  refine ⟨_, hst, hw, ?_, ?_, ?_⟩
  · exact hperm.trans (hmap ▸ List.Perm.refl _)
  · intro m hm hmid
    have hm' := hperm.mem_iff.1 hm
    rcases List.mem_append.1 hm' with h | h
    · exact absurd hmid (ha m h)
    · rcases List.mem_cons.1 h with h | h
      · exact h
      · exact absurd hmid (hb' m h)
  · intro m hmid
    rw [hperm.mem_iff]
    simp only [List.mem_append, List.mem_cons]
    constructor
    · rintro (h | h | h)
      · exact Or.inl h
      · exact absurd (h ▸ hpid) hmid
      · exact Or.inr (Or.inr h)
    · rintro (h | h | h)
      · exact Or.inl h
      · exact absurd (h ▸ heid) hmid
      · exact Or.inr (Or.inr h)

theorem update_fields_only_witness :
    ∃ out, (filmsUpdate ⟨some 12, none, some "9.9", none, none, none, none, none⟩
        [filmC, filmA, filmB]).response.status = 200 ∧
      (filmsUpdate ⟨some 12, none, some "9.9", none, none, none, none, none⟩
        [filmC, filmA, filmB]).written = some out ∧
      out.Perm ([filmC, filmA, filmB].map (fun m => if m.id = 12 then
        { id := m.id
          title := m.title
          rating := "9.9"
          year := m.year
          budget := m.budget
          gross := m.gross
          poster := m.poster
          position := m.position } else m)) ∧
      (∀ m ∈ out, m.id = 12 → m = { filmB with rating := "9.9" }) ∧
      (∀ m, m.id ≠ 12 → (m ∈ out ↔ m ∈ [filmC, filmA, filmB])) :=
  update_fields_only [filmC, filmA, filmB]
    ⟨some 12, none, some "9.9", none, none, none, none, none⟩ 12 filmB (by decide) rfl
    (by decide) rfl (fun _ h => by simp at h) (fun _ h => by simp at h)
    (fun _ h => by simp at h) (by decide) rfl

/-! ## Sequences of writes -/

theorem contiguous_of_perm {l₁ l₂ : List Movie}
    (h : (l₁.map Movie.position).Perm (l₂.map Movie.position)) (hc : Contiguous l₂) :
    Contiguous l₁ := by
  unfold Contiguous at hc ⊢
  have hlen : l₁.length = l₂.length := by simpa using h.length_eq
  rw [hlen]
  exact h.trans hc

theorem positions_applyFields (req : ReqBody) (a : List Movie) (e : Movie) (b : List Movie) :
    (a ++ applyFields req e :: b).map Movie.position = (a ++ e :: b).map Movie.position := by
  simp [applyFields]

theorem step_delete_contiguous {file : List Movie} (hc : Contiguous file) (req : ReqBody) :
    Contiguous (step file (.delete req)) := by
  unfold step WriteOp.handle persisted
  rcases filmsDelete_written req file with h | ⟨a, e, b, rfl, h⟩
  · rw [h]; exact hc
  · rw [h]; exact contiguous_delete hc

theorem step_update_contiguous {file : List Movie} (hc : Contiguous file) (req : ReqBody)
    (hn : RankNeutral file (.update req)) : Contiguous (step file (.update req)) := by
  unfold step WriteOp.handle persisted
  rcases filmsUpdate_written req file with h | ⟨id, a, e, b, hid, rfl, he, h⟩
  · rw [h]; exact hc
  · rw [h]
    have hrep : repositionAt a.length e.position req.position (a ++ applyFields req e :: b) =
        a ++ applyFields req e :: b := by
      rcases hn with hn | hn
      · rw [hn]; rfl
      · have := hn e (by simp) (by rw [hid, he])
        rw [this]
        simp [repositionAt]
    rw [hrep]
    refine contiguous_of_perm ?_ hc
    rw [← positions_applyFields req a e b]
    exact (sortByPosition_perm _).map _

theorem step_create_contiguous {file : List Movie} (hc : Contiguous file) (newId : Int)
    (req : ReqBody) (hn : RankNeutral file (.create newId req)) :
    Contiguous (step file (.create newId req)) := by
  unfold step WriteOp.handle persisted
  rcases filmsCreate_written newId req file with h |
    ⟨title, rating, year, budget, gross, poster, position, hpos, h⟩
  · rw [h]; exact hc
  · rw [h]
    have hd : position = (file.length : Int) + 1 := by
      have : req.position = some ((file.length : Int) + 1) := hn
      rw [hpos] at this
      exact Option.some.inj this
    rw [clampScan_of_contiguous hc, hd]
    simp only [Option.getD_some]
    have hperm := (sortByPosition_perm (sortByPosition file ++
      [⟨newId, title, rating, year, budget, gross, poster, (file.length : Int) + 1⟩])).trans
      ((sortByPosition_perm file).append_right _)
    unfold Contiguous at hc ⊢
    rw [hperm.length_eq]
    simp only [List.length_append, List.length_singleton]
    rw [ranks_succ]
    refine (hperm.map _).trans ?_
    simp only [List.map_append, List.map_cons, List.map_nil]
    exact hc.append_right _

theorem step_contiguous {file : List Movie} (hc : Contiguous file) (op : WriteOp)
    (hn : RankNeutral file op) : Contiguous (step file op) := by
  cases op with
  | create newId req => exact step_create_contiguous hc newId req hn
  | update req => exact step_update_contiguous hc req hn
  | delete req => exact step_delete_contiguous hc req

theorem rankNeutralSeq_take :
    ∀ (ops : List WriteOp) (file : List Movie) (k : Nat), RankNeutralSeq file ops →
      RankNeutralSeq file (ops.take k)
  | [], _, k, _ => by simp [RankNeutralSeq]
  | _ :: _, _, 0, _ => by simp [RankNeutralSeq]
  | op :: ops, file, k + 1, h => by
    simp only [List.take_succ_cons, RankNeutralSeq]
    exact ⟨h.1, rankNeutralSeq_take ops _ k h.2⟩

theorem runAll_contiguous :
    ∀ (ops : List WriteOp) (file : List Movie), Contiguous file → RankNeutralSeq file ops →
      Contiguous (runAll file ops)
  | [], _, hc, _ => hc
  | op :: ops, file, hc, hn =>
    runAll_contiguous ops (step file op) (step_contiguous hc op hn.1) hn.2

/-- C1 (as stated, refuted). A valid create that asks for the occupied
position 2 is answered 201 and leaves the positions 1, 2, 2, 3. -/
theorem create_at_occupied_position_breaks_ranks :
    Contiguous [filmA, filmB, filmC] ∧
    (filmsCreate 77 (fullBody "Delta" "6.5" 2001 1 1 "d.png" 2)
      [filmA, filmB, filmC]).response.status = 201 ∧
    (persisted [filmA, filmB, filmC] (filmsCreate 77 (fullBody "Delta" "6.5" 2001 1 1 "d.png" 2)
      [filmA, filmB, filmC])).map Movie.position = [1, 2, 2, 3] ∧
    ¬ Contiguous (persisted [filmA, filmB, filmC]
      (filmsCreate 77 (fullBody "Delta" "6.5" 2001 1 1 "d.png" 2) [filmA, filmB, filmC])) := by
  decide

/-- C1 (amended). Starting from a collection whose positions are exactly
1..N, after every request of a sequence made of deletes, updates whose patch
has no position or repeats the record's current position, and creates that ask
for position N+1 (N the count at that moment), the positions of the file are
exactly 1..N' for the current count N'; a rejected request writes nothing. -/
theorem ranks_kept_by_neutral_writes (file : List Movie) (ops : List WriteOp)
    (hc : Contiguous file) (hn : RankNeutralSeq file ops) :
    ∀ k, Contiguous (runAll file (ops.take k)) :=
  fun k => runAll_contiguous (ops.take k) file hc (rankNeutralSeq_take ops file k hn)

theorem ranks_kept_by_neutral_writes_witness :
    Contiguous [filmA, filmB, filmC] ∧
    RankNeutralSeq [filmA, filmB, filmC]
      [.delete ⟨some 12, none, none, none, none, none, none, none⟩,
       .create 77 (fullBody "Delta" "6.5" 2001 1 1 "d.png" 3),
       .update ⟨some 13, some "Gamma II", none, none, none, none, none, some 2⟩] ∧
    Contiguous (runAll [filmA, filmB, filmC]
      ([.delete ⟨some 12, none, none, none, none, none, none, none⟩,
        .create 77 (fullBody "Delta" "6.5" 2001 1 1 "d.png" 3),
        .update ⟨some 13, some "Gamma II", none, none, none, none, none, some 2⟩].take 3)) ∧
    (runAll [filmA, filmB, filmC]
      [.delete ⟨some 12, none, none, none, none, none, none, none⟩,
       .create 77 (fullBody "Delta" "6.5" 2001 1 1 "d.png" 3),
       .update ⟨some 13, some "Gamma II", none, none, none, none, none, some 2⟩]).map
        Movie.position = [1, 2, 3] :=
  ⟨by decide, by decide, ranks_kept_by_neutral_writes _ _ (by decide) (by decide) 3, by decide⟩

end Films
